import Mathlib

/-!
Verification of the swaywsr core (src/lib.rs): the tree-to-label pipeline
that extracts workspaces and windows from a sway scene-tree snapshot,
resolves a display identity per window, composes a new workspace label and
decides whether a rename command is issued.

Shallow embedding conventions:
* Rust `HashMap<String, V>` configuration tables become association lists
  with first-match lookup (`mapGet`).
* Rust `Option<T>` becomes `Option`.
* A Rust panic (`Option::unwrap` on `None`) is modelled by returning `none`
  from the embedded function: `none` at the outer `Option` layer always
  means "the program crashed", never a normal result.
* Strings are Lean `String`s; `str::split(' ').next().unwrap()` is the
  longest prefix of characters different from ' ' (`first_token`).
-/

/-- swayipc `WindowProperties`: only the `class` field is used by the code.
(`class` is a Lean keyword, so the field is `winClass`.) -/
structure WindowProperties where
  winClass : Option String

/-- swayipc `NodeType` (the variants the code distinguishes). -/
inductive NodeType where
  | root | output | workspace | con | floatingCon

/-- swayipc `Node`: the fields of the scene-tree node that the code reads.
`window` presence marks a real window; `focused` is a plain bool in swayipc;
`visible` and `name` are optional. -/
inductive Node where
  | mk (app_id : Option String) (window_properties : Option WindowProperties)
       (node_type : NodeType) (nodes : List Node) (floating_nodes : List Node)
       (window : Option Nat) (focused : Bool) (visible : Option Bool)
       (name : Option String) : Node

def Node.app_id : Node → Option String
  | .mk a _ _ _ _ _ _ _ _ => a

def Node.window_properties : Node → Option WindowProperties
  | .mk _ wp _ _ _ _ _ _ _ => wp

def Node.node_type : Node → NodeType
  | .mk _ _ ty _ _ _ _ _ _ => ty

def Node.nodes : Node → List Node
  | .mk _ _ _ ns _ _ _ _ _ => ns

def Node.floating_nodes : Node → List Node
  | .mk _ _ _ _ fl _ _ _ _ => fl

def Node.window : Node → Option Nat
  | .mk _ _ _ _ _ w _ _ _ => w

def Node.focused : Node → Bool
  | .mk _ _ _ _ _ _ f _ _ => f

def Node.visible : Node → Option Bool
  | .mk _ _ _ _ _ _ _ v _ => v

def Node.name : Node → Option String
  | .mk _ _ _ _ _ _ _ _ nm => nm

/-- The `Config` struct: four tables.  Rust `HashMap`s are embedded as
association lists; `icons` maps to `char` in the source. -/
structure Config where
  icons : List (String × Char)
  aliases : List (String × String)
  general : List (String × String)
  options : List (String × Bool)

/-- `HashMap::get`: first-match lookup in the association list. -/
def mapGet {α : Type} (m : List (String × α)) (k : String) : Option α :=
  (m.find? (fun p => p.1 == k)).map (fun p => p.2)

/-- `get_option` from src/lib.rs: option lookup defaulting to `false`. -/
def get_option (config : Config) (key : String) : Bool :=
  match mapGet config.options key with
  | some v => v
  | none => false

/-- `LookupError` from src/lib.rs.  The source's `MissingInformation`
carries the node's debug string; the embedding carries the node itself. -/
inductive LookupError where
  | missingInformation (node : Node)
  | workspaceName (node : Node)

/-- `get_class` from src/lib.rs.  Outer `none` models the panic of
`properties.class.as_ref().unwrap()` when `window_properties` is present
but its `class` field is absent. -/
def get_class (node : Node) (config : Config) :
    Option (Except LookupError String) :=
  let nameStep : Option (Option String) :=
    match node.app_id with
    | some id => some (some id)
    | none =>
      match node.window_properties with
      | some properties =>
        match properties.winClass with
        | some c => some (some c)
        | none => none
      | none => some none
  match nameStep with
  | none => none
  | some none => some (.error (.missingInformation node))
  | some (some cls) =>
    let class_display_name :=
      match mapGet config.aliases cls with
      | some aliasName => aliasName
      | none => cls
    let no_names := get_option config "no_names"
    some (.ok (
      match mapGet config.icons cls with
      | some icon =>
        if no_names then String.singleton icon
        else String.singleton icon ++ " " ++ class_display_name
      | none =>
        match mapGet config.general "default_icon" with
        | some default_icon =>
          if no_names then default_icon
          else default_icon ++ " " ++ class_display_name
        | none => class_display_name))

/-- The raw class key of a node: the `app_id` when present, otherwise the
class inside `window_properties`.  `get_class` panics exactly on the nodes
where `window_properties` is present with an absent class; on every node
with `class_key = some k` it succeeds. -/
def class_key (node : Node) : Option String :=
  match node.app_id with
  | some id => some id
  | none =>
    match node.window_properties with
    | some properties => properties.winClass
    | none => none

/-- The Identity Resolver's display string written exactly as the spec
describes it (label from alias else key; icon from icon table else
"default_icon" else none; composition by `no_names`), to be compared
with `get_class`. -/
def spec_display (config : Config) (key : String) : String :=
  let label :=
    match mapGet config.aliases key with
    | some aliasName => aliasName
    | none => key
  let icon : Option String :=
    match mapGet config.icons key with
    | some i => some (String.singleton i)
    | none => mapGet config.general "default_icon"
  match icon with
  | some i => if get_option config "no_names" then i else i ++ " " ++ label
  | none => label

/-- `get_workspaces` from src/lib.rs: the root's children are outputs, and
each output's children tagged `Workspace` are collected in order. -/
def get_workspaces (tree : Node) : List Node :=
  tree.nodes.flatMap (fun output =>
    output.nodes.filter (fun container =>
      match container.node_type with
      | NodeType.workspace => true
      | _ => false))

/-- One step of the collection in `get_window_nodes`: a node is collected
when it has a window handle, or else when it has an `app_id` (the `else if`
of the source: the `app_id` check is only consulted when there is no
window handle). -/
def collect_window_node (n : Node) : List Node :=
  match n.window with
  | some _ => [n]
  | none =>
    match n.app_id with
    | some _ => [n]
    | none => []

/-- Number of nodes in a forest, counting both regular and floating
subtrees (termination measure for `get_window_nodes`). -/
def forestSize : List Node → Nat
  | [] => 0
  | .mk _ _ _ ns fl _ _ _ _ :: rest =>
    1 + forestSize ns + forestSize fl + forestSize rest

/-- Total size of a stack of node lists. -/
def stackWeight (stack : List (List Node)) : Nat :=
  match stack with
  | [] => 0
  | l :: rest => forestSize l + stackWeight rest

theorem stackWeight_append (s t : List (List Node)) :
    stackWeight (s ++ t) = stackWeight s + stackWeight t := by
  induction s with
  | nil => simp [stackWeight]
  | cons l rest ih => simp [stackWeight, ih]; omega

theorem stackWeight_reverse (s : List (List Node)) :
    stackWeight (s.reverse) = stackWeight s := by
  induction s with
  | nil => rfl
  | cons l rest ih =>
    simp [stackWeight, List.reverse_cons, stackWeight_append, ih]
    omega

theorem forestSize_children_lt (next : List Node) :
    next.length + stackWeight (next.map Node.nodes) ≤ forestSize next := by
  induction next with
  | nil => simp [stackWeight, forestSize]
  | cons n ns ih =>
    cases n with
    | mk a wp ty cns fl w f v nm =>
      simp only [List.map_cons, stackWeight, List.length_cons, forestSize,
        Node.nodes]
      omega

theorem gwn_measure_lt (next : List Node) (rest : List (List Node)) :
    2 * stackWeight ((next.map Node.nodes).reverse ++ rest) +
        ((next.map Node.nodes).reverse ++ rest).length <
      2 * stackWeight (next :: rest) + (next :: rest).length := by
  have h := forestSize_children_lt next
  simp only [stackWeight_append, stackWeight_reverse, List.length_append,
    List.length_reverse, List.length_map, stackWeight, List.length_cons]
  omega

/-- `get_window_nodes` from src/lib.rs: the stack-based expansion.  The
stack is a list of node lists with the top at the head (Rust `Vec::pop`
takes the most recently pushed list).  One iteration pops the top list
`next`, pushes each member's child list (so the last member's children end
up on top) and collects, in order, the members that carry a window handle
or an `app_id`. -/
def get_window_nodes : List (List Node) → List Node
  | [] => []
  | next :: rest =>
    next.flatMap collect_window_node ++
      get_window_nodes ((next.map Node.nodes).reverse ++ rest)
termination_by stack => 2 * stackWeight stack + stack.length
decreasing_by
  exact gwn_measure_lt _ _

mutual

/-- Pre-order collection of the window nodes of one subtree: the node
itself (when collectible) before its children, children in listed order.
This is the traversal order the spec prescribes, written for comparison
with `get_window_nodes`. -/
def preorder_windows : Node → List Node
  | .mk a wp ty ns fl w f v nm =>
    collect_window_node (.mk a wp ty ns fl w f v nm) ++
      preorder_forest ns

/-- Pre-order collection over a forest, trees in listed order. -/
def preorder_forest : List Node → List Node
  | [] => []
  | n :: ns => preorder_windows n ++ preorder_forest ns

end

/-- The skip condition of the visibility/focus filter in `get_classes`. -/
def skip_window (config : Config) (is_visible : Bool) (is_focused : Bool) :
    Bool :=
  get_option config "focused_only" && is_visible && !is_focused

/-- The per-window loop of `get_classes` from src/lib.rs.  Outer `none`
models a panic: `node.visible.unwrap()` on an absent visible flag, or a
panic inside `get_class`.  A `get_class` error is logged and the window
skipped. -/
def get_classes_loop (config : Config) : List Node → Option (List String)
  | [] => some []
  | node :: rest =>
    match node.visible with
    | none => none
    | some is_visible =>
      if skip_window config is_visible node.focused then
        get_classes_loop config rest
      else
        match get_class node config with
        | none => none
        | some (.error _) => get_classes_loop config rest
        | some (.ok cls) =>
          match get_classes_loop config rest with
          | none => none
          | some rest_classes => some (cls :: rest_classes)

/-- `get_classes` from src/lib.rs: window nodes of the regular child list
first, then the floating child list appended, then the filter/resolve
loop. -/
def get_classes (workspace : Node) (config : Config) :
    Option (List String) :=
  get_classes_loop config
    (get_window_nodes [workspace.nodes] ++
      get_window_nodes [workspace.floating_nodes])

/-- The `Ok` payload of `get_class`, `none` on error or panic. -/
def resolved_class (config : Config) (n : Node) : Option String :=
  match get_class n config with
  | some (.ok cls) => some cls
  | _ => none

/-- The separator from `update_tree`: `config.general.get("separator")`
with default `" | "`. -/
def separator_of (config : Config) : String :=
  match mapGet config.general "separator" with
  | some s => s
  | none => " | "

/-- itertools `unique()`: keep an element when it has not been seen yet
(first occurrence wins, first-seen order preserved). -/
def unique_aux (seen : List String) : List String → List String
  | [] => []
  | x :: xs =>
    if x ∈ seen then unique_aux seen xs
    else x :: unique_aux (x :: seen) xs

/-- `classes.into_iter().unique().collect()` from `update_tree`. -/
def unique (l : List String) : List String :=
  unique_aux [] l

/-- The deduplication step of `update_tree`: apply `unique` exactly when
the `remove_duplicates` option is set. -/
def apply_dedup (config : Config) (classes : List String) : List String :=
  if get_option config "remove_duplicates" then unique classes else classes

/-- The space-prefix step of `update_tree`: `format!(" {}", classes)` when
non-empty, unchanged otherwise. -/
def with_leading_space (s : String) : String :=
  if s.isEmpty then s else " " ++ s

/-- The classes-to-suffix pipeline of `update_tree`: dedup, join with the
separator, prefix a space when non-empty. -/
def joined_classes (config : Config) (classes : List String) : String :=
  with_leading_space
    (String.intercalate (separator_of config) (apply_dedup config classes))

/-- `old.split(' ').next().unwrap()`: the prefix of `old` before the first
`' '` (the whole string when there is no space). -/
def first_token (old : String) : String :=
  String.mk (old.data.takeWhile (fun c => c != ' '))

/-- The new workspace name computed by `update_tree`: the first token of
the old name, with the non-empty suffix appended. -/
def new_name (config : Config) (classes : List String) (old : String) :
    String :=
  let suffix := joined_classes config classes
  if suffix.isEmpty then first_token old else first_token old ++ suffix

/-- The body of the per-workspace loop of `update_tree`: the list of
rename commands this workspace sends (`[]` or one command), `Except.error`
for the `WorkspaceName` failure, outer `none` for a panic inside
`get_classes`. -/
def process_workspace (config : Config) (workspace : Node) :
    Option (Except LookupError (List String)) :=
  match get_classes workspace config with
  | none => none
  | some classes =>
    match workspace.name with
    | none => some (.error (.workspaceName workspace))
    | some old =>
      let new := new_name config classes old
      if old ≠ new then
        some (.ok ["rename workspace \"" ++ old ++ "\" to \"" ++ new ++ "\""])
      else
        some (.ok [])

/-- Outcome of one `update_tree` run: the rename commands sent, and
whether the loop ran to completion, stopped with a `LookupError`
propagated by `?`, or panicked.  Commands already sent before the stop are
retained. -/
inductive UpdateResult where
  | ok (cmds : List String)
  | fail (cmds : List String) (e : LookupError)
  | panicked (cmds : List String)

/-- The workspace loop of `update_tree` over an explicit workspace list.
The `?` on the missing-name lookup stops the whole loop; commands from
earlier workspaces have already been sent. -/
def update_loop (config : Config) : List Node → UpdateResult
  | [] => .ok []
  | w :: ws =>
    match process_workspace config w with
    | none => .panicked []
    | some (.error e) => .fail [] e
    | some (.ok cmds) =>
      match update_loop config ws with
      | .ok rest => .ok (cmds ++ rest)
      | .fail rest e => .fail (cmds ++ rest) e
      | .panicked rest => .panicked (cmds ++ rest)

/-- `update_tree` from src/lib.rs, with the IPC transport modelled as a
recorder: the tree is the already-fetched snapshot and the result lists
the rename commands passed to `run_command`, in order. -/
def update_tree (tree : Node) (config : Config) : UpdateResult :=
  update_loop config (get_workspaces tree)

/-- Replace the name of a node (used to model the effect of a rename
command on the tree). -/
def Node.set_name (n : Node) (nm : Option String) : Node :=
  match n with
  | .mk a wp ty ns fl w f v _ => .mk a wp ty ns fl w f v nm

/-- The effect of one successful `update_tree` pass on one workspace: its
name becomes the computed name.  Workspaces the pass could not process
are left unchanged. -/
def rename_ws (config : Config) (w : Node) : Node :=
  match get_classes w config, w.name with
  | some classes, some old => w.set_name (some (new_name config classes old))
  | _, _ => w

/-- The effect of one successful `update_tree` pass on the whole tree:
every depth-two workspace node gets its computed name; everything else is
untouched. -/
def rename_all (config : Config) : Node → Node
  | .mk a wp ty outputs fl w f v nm =>
    .mk a wp ty
      (outputs.map (fun output =>
        match output with
        | .mk a2 wp2 ty2 containers fl2 w2 f2 v2 nm2 =>
          .mk a2 wp2 ty2
            (containers.map (fun container =>
              match container.node_type with
              | NodeType.workspace => rename_ws config container
              | _ => container))
            fl2 w2 f2 v2 nm2))
      fl w f v nm

theorem preorder_forest_eq_flatMap (ns : List Node) :
    preorder_forest ns = ns.flatMap preorder_windows := by
  induction ns with
  | nil => rfl
  | cons n rest ih => simp [preorder_forest, ih]

theorem preorder_windows_eq (n : Node) :
    preorder_windows n = collect_window_node n ++ preorder_forest n.nodes := by
  cases n with
  | mk a wp ty ns fl w f v nm => simp [preorder_windows, Node.nodes]

/-- The stack expansion of `get_window_nodes` collects, up to order, the
same nodes as the pre-order traversal of every list on the stack. -/
theorem gwn_perm (stack : List (List Node)) :
    (get_window_nodes stack).Perm (stack.flatMap preorder_forest) := by
  induction stack using get_window_nodes.induct with
  | case1 => simp [get_window_nodes]
  | case2 next rest ih =>
    rw [get_window_nodes]
    have h1 : (get_window_nodes ((next.map Node.nodes).reverse ++ rest)).Perm
        (((next.map Node.nodes).reverse ++ rest).flatMap preorder_forest) := ih
    have h2 : (((next.map Node.nodes).reverse ++ rest).flatMap
        preorder_forest).Perm
        ((next.map Node.nodes).flatMap preorder_forest ++
          rest.flatMap preorder_forest) := by
      rw [List.flatMap_append]
      exact List.Perm.append ((List.reverse_perm _).flatMap_right _)
        (List.Perm.refl _)
    have h3 : (next.map Node.nodes).flatMap preorder_forest
        = next.flatMap (fun n => preorder_forest n.nodes) := by
      rw [List.flatMap_map]
    have h4 : (next.flatMap collect_window_node ++
        next.flatMap (fun n => preorder_forest n.nodes)).Perm
        (preorder_forest next) := by
      refine (List.flatMap_append_perm next collect_window_node _).trans ?_
      rw [preorder_forest_eq_flatMap]
      apply List.Perm.flatMap_left
      intro n _
      rw [preorder_windows_eq]
    rw [List.flatMap_cons]
    refine List.Perm.trans
      (List.Perm.append_left (next.flatMap collect_window_node)
        (h1.trans h2)) ?_
    rw [← List.append_assoc]
    refine List.Perm.append_right (rest.flatMap preorder_forest) ?_
    rw [h3]
    exact h4

/-- Example window leaf carrying only an `app_id`. -/
def exLeaf (id : String) : Node :=
  .mk (some id) none .con [] [] (some 0) false (some true) none

/-- Example window node with children. -/
def exParent (id : String) (children : List Node) : Node :=
  .mk (some id) none .con children [] (some 0) false (some true) none

/-- Two sibling windows, each with one child window. -/
def exForest2 : List Node :=
  [exParent "c1" [exLeaf "g1"], exParent "c2" [exLeaf "g2"]]

/-- C3 counterexample: on a workspace with two children each having one
child, `get_window_nodes` collects `c1, c2, g2, g1` — both top-level
siblings before any grandchild, and the *last* sibling's subtree first —
while the pre-order depth-first traversal the claim prescribes yields
`c1, g1, c2, g2`.  The claim's "pre-order" ordering is therefore false of
the code. -/
theorem c3_counterexample :
    (get_window_nodes [exForest2]).map Node.app_id =
      [some "c1", some "c2", some "g2", some "g1"] ∧
    (preorder_forest exForest2).map Node.app_id =
      [some "c1", some "g1", some "c2", some "g2"] ∧
    get_window_nodes [exForest2] ≠ preorder_forest exForest2 := by
  have hg : (get_window_nodes [exForest2]).map Node.app_id =
      [some "c1", some "c2", some "g2", some "g1"] := by
    simp [exForest2, exParent, exLeaf, get_window_nodes, collect_window_node,
      Node.nodes, Node.window, Node.app_id]
  have hp : (preorder_forest exForest2).map Node.app_id =
      [some "c1", some "g1", some "c2", some "g2"] := by
    simp [exForest2, exParent, exLeaf, preorder_forest, preorder_windows,
      collect_window_node, Node.nodes, Node.window, Node.app_id]
  refine ⟨hg, hp, fun h => ?_⟩
  rw [h, hp] at hg
  exact absurd hg (by decide)

/-- C3 (amended): window extraction visits every collectible descendant
exactly once — its result is a permutation of the pre-order collection —
and it is run separately over the regular and floating child lists with
the floating results appended after the regular results; but the visiting
order is the stack-popping order, not pre-order. -/
theorem c3_traversal_complete (ns : List Node) :
    (get_window_nodes [ns]).Perm (preorder_forest ns) ∧
    ∀ (workspace : Node) (config : Config),
      get_classes workspace config =
        get_classes_loop config
          (get_window_nodes [workspace.nodes] ++
            get_window_nodes [workspace.floating_nodes]) := by
  constructor
  · have h := gwn_perm [ns]
    simpa using h
  · intro w config
    rfl

/-- Number of collectible positions (window handle or `app_id` present)
in a forest, each position counted once. -/
def countCollectible : List Node → Nat
  | [] => 0
  | .mk a _ _ cns _ w _ _ _ :: rest =>
    (if w.isSome || a.isSome then 1 else 0) +
      countCollectible cns + countCollectible rest

theorem collect_window_node_length (n : Node) :
    (collect_window_node n).length =
      if n.window.isSome || n.app_id.isSome then 1 else 0 := by
  cases n with
  | mk a wp ty ns fl w f v nm =>
    cases w <;> cases a <;>
      simp [collect_window_node, Node.window, Node.app_id]

theorem preorder_forest_length (ns : List Node) :
    (preorder_forest ns).length = countCollectible ns := by
  induction ns using countCollectible.induct with
  | case1 => simp [preorder_forest, countCollectible]
  | case2 a wp ty cns fl w f v nm rest ih1 ih2 =>
    rw [preorder_forest, preorder_windows_eq, countCollectible]
    simp only [List.length_append, collect_window_node_length,
      Node.window, Node.app_id, Node.nodes, ih1, ih2]

/-- C10: a node carrying both a window handle and an `app_id` is collected
exactly once (the `app_id` branch is only consulted when there is no
window handle), and the total number of collected window nodes equals the
number of collectible positions of the forest — no node contributes two
entries. -/
theorem c10_node_collected_once :
    (∀ n : Node, n.window.isSome = true → collect_window_node n = [n]) ∧
    (∀ n : Node, n.window.isSome = true ∨ n.app_id.isSome = true →
      (collect_window_node n).length = 1) ∧
    (∀ ns : List Node,
      (get_window_nodes [ns]).length = countCollectible ns) := by
  refine ⟨?_, ?_, ?_⟩
  · intro n h
    cases n with
    | mk a wp ty ns fl w f v nm =>
      cases w with
      | some _ => simp [collect_window_node, Node.window]
      | none => simp [Node.window] at h
  · intro n h
    rw [collect_window_node_length]
    rcases h with h | h <;> simp [h]
  · intro ns
    have h := (gwn_perm [ns]).length_eq
    simpa [preorder_forest_length] using h

/-- Example node carrying both a window handle and an `app_id`. -/
def exBoth : Node :=
  .mk (some "b") none .con [] [] (some 7) false (some true) none

/-- Witness for C10 at a concrete node with both a window handle and an
`app_id`: it is collected exactly once. -/
theorem c10_witness :
    collect_window_node exBoth = [exBoth] ∧
    (collect_window_node exBoth).length = 1 :=
  ⟨c10_node_collected_once.1 exBoth rfl,
   c10_node_collected_once.2.1 exBoth (Or.inl rfl)⟩

/-- C4: for every window node with a resolvable class key, `get_class`
returns exactly the display string the spec describes: label = alias for
the key else the key; icon = icon table entry for the key else the general
"default_icon" else none; composition = icon alone when `no_names` is set,
"<icon> <label>" when not, "<label>" alone when there is no icon. -/
theorem c4_identity_resolution (config : Config) (node : Node) (k : String)
    (h : class_key node = some k) :
    get_class node config = some (Except.ok (spec_display config k)) := by
  cases node with
  | mk a wp ty ns fl w f v nm =>
    cases a with
    | some id =>
      simp only [class_key, Node.app_id, Option.some.injEq] at h
      subst h
      rcases hi : mapGet config.icons id with _ | icon <;>
        rcases hd : mapGet config.general "default_icon" with _ | di <;>
          cases hn : get_option config "no_names" <;>
            simp [get_class, spec_display, Node.app_id, hi, hd, hn]
    | none =>
      cases wp with
      | none =>
        simp [class_key, Node.app_id, Node.window_properties] at h
      | some props =>
        cases hcl : props.winClass with
        | none =>
          rw [class_key] at h
          simp [Node.app_id, Node.window_properties, hcl] at h
        | some c =>
          rw [class_key] at h
          simp only [Node.app_id, Node.window_properties, hcl,
            Option.some.injEq] at h
          subst h
          rcases hi : mapGet config.icons c with _ | icon <;>
            rcases hd : mapGet config.general "default_icon" with _ | di <;>
              cases hn : get_option config "no_names" <;>
                simp [get_class, spec_display, Node.app_id,
                  Node.window_properties, hcl, hi, hd, hn]

/-- Firefox window node identified through `window_properties.class`. -/
def exFirefox : Node :=
  .mk none (some ⟨some "Firefox"⟩) .con [] [] (some 1) false (some true) none

/-- Configuration with icon table `{"Firefox" ↦ 'F'}`. -/
def exCfgIcon : Config := ⟨[("Firefox", 'F')], [], [], []⟩

/-- Same icon table with `no_names` set. -/
def exCfgIconNoNames : Config :=
  ⟨[("Firefox", 'F')], [], [], [("no_names", true)]⟩

/-- No icon table, general `default_icon = "*"`. -/
def exCfgDefaultIcon : Config := ⟨[], [], [("default_icon", "*")], []⟩

/-- The empty configuration (all four tables empty). -/
def exCfg : Config := ⟨[], [], [], []⟩

/-- Witness for C4 at the spec's four Firefox examples. -/
theorem c4_witness :
    get_class exFirefox exCfgIcon = some (Except.ok "F Firefox") ∧
    get_class exFirefox exCfgIconNoNames = some (Except.ok "F") ∧
    get_class exFirefox exCfgDefaultIcon = some (Except.ok "* Firefox") ∧
    get_class exFirefox exCfg = some (Except.ok "Firefox") := by
  refine ⟨?_, ?_, ?_, ?_⟩ <;>
    rw [c4_identity_resolution _ exFirefox "Firefox" rfl] <;> rfl

/-- C5: on any window-node list whose members all have a visible flag and
a non-panicking class lookup, the collection loop keeps exactly the nodes
not excluded by the filter — and the filter excludes a node exactly when
`focused_only` is enabled, its visible flag is true and its focused flag
is false; in particular an invisible unfocused window passes, a focused
window passes regardless of visibility, and with `focused_only` disabled
nothing is excluded. -/
theorem c5_focus_filter (config : Config) (l : List Node)
    (h : ∀ n ∈ l, n.visible.isSome = true ∧ get_class n config ≠ none) :
    get_classes_loop config l =
      some ((l.filter (fun n =>
          !skip_window config (n.visible.getD false) n.focused)).filterMap
        (resolved_class config)) ∧
    (∀ v f, skip_window config v f =
      (get_option config "focused_only" && v && !f)) ∧
    (∀ f, skip_window config false f = false) ∧
    (∀ v, skip_window config v true = false) ∧
    (get_option config "focused_only" = false →
      ∀ v f, skip_window config v f = false) := by
  refine ⟨?_, fun v f => rfl, fun f => by simp [skip_window],
    fun v => by simp [skip_window], fun hfo v f => by simp [skip_window, hfo]⟩
  induction l with
  | nil => rfl
  | cons n rest ih =>
    obtain ⟨hvis, hcls⟩ := h n (List.mem_cons_self n rest)
    have hrest := ih (fun m hm => h m (List.mem_cons_of_mem n hm))
    rcases hv : n.visible with _ | v
    · rw [hv] at hvis; cases hvis
    · rw [get_classes_loop, hv]
      rcases hskip : skip_window config v n.focused with _ | _
      · rcases hgc : get_class n config with _ | res
        · exact absurd hgc hcls
        · cases res with
          | error e =>
            simp only [List.filter_cons, hv, Option.getD_some, hskip,
              Bool.not_false, if_pos rfl, List.filterMap_cons]
            rw [hrest]
            simp [resolved_class, hgc]
          | ok cls =>
            simp only [List.filter_cons, hv, Option.getD_some, hskip,
              Bool.not_false, if_pos rfl, List.filterMap_cons]
            rw [hrest]
            simp [resolved_class, hgc]
      · simp only [List.filter_cons, hv, Option.getD_some, hskip,
          Bool.not_true, Bool.false_eq_true, if_false]
        exact hrest

/-- Configuration with only `focused_only` enabled. -/
def exCfgFocusedOnly : Config := ⟨[], [], [], [("focused_only", true)]⟩

/-- Visible, unfocused window. -/
def exWinA : Node := .mk (some "A") none .con [] [] (some 1) false (some true) none

/-- Invisible, unfocused window. -/
def exWinB : Node := .mk (some "B") none .con [] [] (some 2) false (some false) none

/-- Visible, focused window. -/
def exWinC : Node := .mk (some "C") none .con [] [] (some 3) true (some true) none

/-- Witness for C5 at the spec's filtering example: with `focused_only`
set, the visible unfocused window is excluded while the invisible
unfocused and the focused windows are kept. -/
theorem c5_witness :
    get_classes_loop exCfgFocusedOnly [exWinA, exWinB, exWinC] =
      some ["B", "C"] := by
  have hyp : ∀ n ∈ [exWinA, exWinB, exWinC],
      n.visible.isSome = true ∧ get_class n exCfgFocusedOnly ≠ none := by
    intro n hn
    rcases List.mem_cons.mp hn with rfl | hn
    · exact ⟨rfl, fun hc => Option.noConfusion hc⟩
    rcases List.mem_cons.mp hn with rfl | hn
    · exact ⟨rfl, fun hc => Option.noConfusion hc⟩
    rcases List.mem_cons.mp hn with rfl | hn
    · exact ⟨rfl, fun hc => Option.noConfusion hc⟩
    · cases hn
  rw [(c5_focus_filter exCfgFocusedOnly [exWinA, exWinB, exWinC] hyp).1]
  rfl

/-- Well-formed window leaf with `app_id "x"`. -/
def exGood : Node := .mk (some "x") none .con [] [] (some 1) false (some true) none

/-- Contract-violating window: `window_properties` present, class absent. -/
def exBadClass : Node :=
  .mk none (some ⟨none⟩) .con [] [] (some 1) false (some true) none

/-- Contract-violating window: `visible` flag absent. -/
def exNoVisible : Node := .mk (some "y") none .con [] [] (some 1) false none none

/-- Workspace holding a good window followed by the bad-class window. -/
def exWsBadClass : Node :=
  .mk none none .workspace [exGood, exBadClass] [] none false none (some "1")

/-- Workspace holding a good window followed by the no-visible window. -/
def exWsNoVisible : Node :=
  .mk none none .workspace [exGood, exNoVisible] [] none false none (some "1")

/-- C2 counterexample: a workspace containing a healthy window (`app_id
"x"`) and one contract-violating window crashes the whole collection
(`none` models the Rust panic) for both violations — `window_properties`
present with absent class, and absent `visible` flag — instead of
surfacing a recoverable window-level error and keeping the sibling's
`"x"`. -/
theorem c2_counterexample :
    get_class exBadClass exCfg = none ∧
    get_classes exWsBadClass exCfg = none ∧
    get_classes exWsNoVisible exCfg = none ∧
    get_classes exWsBadClass exCfg ≠ some ["x"] ∧
    get_classes exWsNoVisible exCfg ≠ some ["x"] := by
  have h1 : get_class exBadClass exCfg = none := rfl
  have h2 : get_classes exWsBadClass exCfg = none := by
    simp [get_classes, get_window_nodes, exWsBadClass, exGood, exBadClass,
      exCfg, collect_window_node, get_classes_loop, get_class, skip_window,
      get_option, mapGet, Node.nodes, Node.floating_nodes, Node.window,
      Node.app_id, Node.visible, Node.focused, Node.window_properties]
  have h3 : get_classes exWsNoVisible exCfg = none := by
    simp [get_classes, get_window_nodes, exWsNoVisible, exGood, exNoVisible,
      exCfg, collect_window_node, get_classes_loop, get_class, skip_window,
      get_option, mapGet, Node.nodes, Node.floating_nodes, Node.window,
      Node.app_id, Node.visible, Node.focused, Node.window_properties]
  exact ⟨h1, h2, h3, by rw [h2]; exact fun hc => Option.noConfusion hc,
    by rw [h3]; exact fun hc => Option.noConfusion hc⟩

/-- C2 (amended): both node-contract violations crash the program (Rust
`unwrap` panic, modelled as `none`) rather than surfacing a recoverable
window-level error: `get_class` panics whenever `window_properties` is
present with an absent class, and the collection loop panics whenever any
window node in the list has an absent visible flag. -/
theorem c2_contract_violations_panic (config : Config) :
    (∀ node : Node, node.app_id = none →
      ∀ wp : WindowProperties, node.window_properties = some wp →
        wp.winClass = none → get_class node config = none) ∧
    (∀ l : List Node, ∀ n ∈ l, n.visible = none →
      get_classes_loop config l = none) := by
  constructor
  · intro node ha wp hwp hcl
    cases node with
    | mk a wpf ty ns fl w f v nm =>
      rw [Node.app_id] at ha
      rw [Node.window_properties] at hwp
      subst ha
      subst hwp
      rw [get_class]
      simp [Node.app_id, Node.window_properties, hcl]
  · intro l
    induction l with
    | nil => intro n hn; cases hn
    | cons m rest ih =>
      intro n hn hv
      rcases List.mem_cons.mp hn with rfl | hmem
      · rw [get_classes_loop, hv]
      · rw [get_classes_loop]
        rcases hmv : m.visible with _ | mv
        · rfl
        · have hrest := ih n hmem hv
          rw [hrest]
          cases hskip : skip_window config mv m.focused with
          | true => simp [hskip]
          | false =>
            simp only [hskip, Bool.false_eq_true, if_false]
            rcases get_class m config with _ | res
            · rfl
            · cases res with
              | error e => rfl
              | ok cls => rfl

/-- Witness for the amended C2 at concrete contract-violating nodes. -/
theorem c2_amended_witness :
    get_class exBadClass exCfg = none ∧
    get_classes_loop exCfg [exGood, exNoVisible] = none := by
  constructor
  · exact (c2_contract_violations_panic exCfg).1 exBadClass rfl ⟨none⟩ rfl rfl
  · exact (c2_contract_violations_panic exCfg).2 [exGood, exNoVisible]
      exNoVisible (List.mem_cons_of_mem _ (List.mem_cons_self _ _)) rfl

theorem unique_aux_filter (t : List String) (xs : List String) :
    ∀ s : List String, unique_aux (s ++ t) xs =
      unique_aux s (xs.filter (fun y => decide (y ∉ t))) := by
  induction xs with
  | nil => intro s; rfl
  | cons x xs ih =>
    intro s
    by_cases hxt : x ∈ t
    · rw [unique_aux, if_pos (List.mem_append_right s hxt)]
      rw [List.filter_cons, if_neg (by simp [hxt])]
      exact ih s
    · by_cases hxs : x ∈ s
      · rw [unique_aux, if_pos (List.mem_append_left t hxs)]
        rw [List.filter_cons, if_pos (by simp [hxt])]
        rw [unique_aux, if_pos hxs]
        exact ih s
      · rw [unique_aux, if_neg (by simp [hxs, hxt])]
        rw [List.filter_cons, if_pos (by simp [hxt])]
        rw [unique_aux, if_neg hxs]
        have h := ih (x :: s)
        rw [show (x :: s) ++ t = x :: (s ++ t) from rfl] at h
        rw [h]

theorem mem_unique_aux (y : String) (xs : List String) :
    ∀ seen, y ∈ unique_aux seen xs ↔ (y ∈ xs ∧ y ∉ seen) := by
  induction xs with
  | nil => intro seen; simp [unique_aux]
  | cons x xs ih =>
    intro seen
    by_cases hx : x ∈ seen
    · rw [unique_aux, if_pos hx, ih]
      constructor
      · rintro ⟨h1, h2⟩
        exact ⟨List.mem_cons_of_mem x h1, h2⟩
      · rintro ⟨h1, h2⟩
        rcases List.mem_cons.mp h1 with rfl | h1
        · exact absurd hx h2
        · exact ⟨h1, h2⟩
    · rw [unique_aux, if_neg hx, List.mem_cons, ih (x :: seen)]
      by_cases hyx : y = x
      · subst hyx
        simp [hx]
      · simp only [hyx, false_or, List.mem_cons]

theorem nodup_unique_aux (xs : List String) :
    ∀ seen, (unique_aux seen xs).Nodup := by
  induction xs with
  | nil => intro seen; simp [unique_aux]
  | cons x xs ih =>
    intro seen
    by_cases hx : x ∈ seen
    · rw [unique_aux, if_pos hx]
      exact ih seen
    · rw [unique_aux, if_neg hx]
      refine List.nodup_cons.mpr ⟨?_, ih (x :: seen)⟩
      intro hmem
      exact ((mem_unique_aux x xs (x :: seen)).mp hmem).2
        (List.mem_cons_self x seen)

theorem unique_aux_sublist (xs : List String) :
    ∀ seen, (unique_aux seen xs).Sublist xs := by
  induction xs with
  | nil => intro seen; simp [unique_aux]
  | cons x xs ih =>
    intro seen
    by_cases hx : x ∈ seen
    · rw [unique_aux, if_pos hx]
      exact (ih seen).cons x
    · rw [unique_aux, if_neg hx]
      exact (ih (x :: seen)).cons₂ x

/-- The defining recurrence of first-occurrence deduplication: the head is
kept and all its later duplicates are dropped before deduplicating the
rest. -/
theorem unique_cons (x : String) (xs : List String) :
    unique (x :: xs) = x :: unique (xs.filter (fun y => decide (y ≠ x))) := by
  rw [unique, unique_aux, if_neg (List.not_mem_nil x), unique]
  have h := unique_aux_filter [x] xs []
  rw [show ([] : List String) ++ [x] = [x] from rfl] at h
  rw [h]
  have hf : List.filter (fun y => decide (y ∉ [x])) xs =
      List.filter (fun y => decide (y ≠ x)) xs :=
    List.filter_congr (fun y _ => by simp)
  rw [hf]

/-- C6: the Label Composer collapses the sequence to first occurrences in
first-seen order exactly when `remove_duplicates` is set (the result is a
duplicate-free subsequence of the input containing the same strings,
obeying the first-occurrence recurrence), joins with the configured
separator defaulting to `" | "`, and prefixes exactly one space to a
non-empty joined string while an empty one stays empty. -/
theorem c6_label_composer (config : Config) (classes : List String) :
    joined_classes config classes =
      with_leading_space
        (String.intercalate (separator_of config)
          (apply_dedup config classes)) ∧
    (get_option config "remove_duplicates" = true →
      apply_dedup config classes = unique classes) ∧
    (get_option config "remove_duplicates" = false →
      apply_dedup config classes = classes) ∧
    unique ([] : List String) = [] ∧
    (∀ x xs, unique (x :: xs) =
      x :: unique (xs.filter (fun y => decide (y ≠ x)))) ∧
    (∀ l : List String, (unique l).Sublist l) ∧
    (∀ l : List String, (unique l).Nodup) ∧
    (∀ (l : List String) (y : String), y ∈ unique l ↔ y ∈ l) ∧
    (mapGet config.general "separator" = none →
      separator_of config = " | ") ∧
    (∀ s, mapGet config.general "separator" = some s →
      separator_of config = s) ∧
    (∀ s : String, s ≠ "" → with_leading_space s = " " ++ s) ∧
    with_leading_space "" = "" := by
  refine ⟨rfl, ?_, ?_, rfl, unique_cons, ?_, ?_, ?_, ?_, ?_, ?_, rfl⟩
  · intro h
    rw [apply_dedup, h, if_pos rfl]
  · intro h
    rw [apply_dedup, h]
    rfl
  · intro l
    exact unique_aux_sublist l []
  · intro l
    exact nodup_unique_aux l []
  · intro l y
    rw [unique, mem_unique_aux]
    simp
  · intro h
    rw [separator_of, h]
  · intro s h
    rw [separator_of, h]
  · intro s h
    rw [with_leading_space, if_neg]
    intro he
    exact h ((String.isEmpty_iff s).mp he)

/-- Configuration with `remove_duplicates` set. -/
def exCfgDedup : Config := ⟨[], [], [], [("remove_duplicates", true)]⟩

/-- Witness for C6 at the spec's deduplication example: `["A","B","A"]`
collapses to `["A","B"]` and composes to `" A | B"`. -/
theorem c6_witness :
    apply_dedup exCfgDedup ["A", "B", "A"] = ["A", "B"] ∧
    joined_classes exCfgDedup ["A", "B", "A"] = " A | B" ∧
    with_leading_space "A | B" = " A | B" := by
  obtain ⟨hj, hdt, _, _, _, _, _, _, _, _, hsp, _⟩ :=
    c6_label_composer exCfgDedup ["A", "B", "A"]
  refine ⟨?_, ?_, ?_⟩
  · rw [hdt rfl]
    rfl
  · rw [hj]
    rfl
  · rw [hsp "A | B" (by decide)]
    rfl

theorem takeWhile_mono_prefix {p q : Char → Bool} (l : List Char)
    (h : ∀ c, p c = true → q c = true) :
    ∃ r, l.takeWhile q = l.takeWhile p ++ r := by
  induction l with
  | nil => exact ⟨[], rfl⟩
  | cons c l ih =>
    cases hp : p c with
    | true =>
      obtain ⟨r, hr⟩ := ih
      refine ⟨r, ?_⟩
      rw [List.takeWhile_cons, List.takeWhile_cons, hp, h c hp]
      simp [hr]
    | false =>
      refine ⟨(c :: l).takeWhile q, ?_⟩
      have hpr : List.takeWhile p (c :: l) = [] := by
        simp [List.takeWhile_cons, hp]
      rw [hpr, List.nil_append]

/-- C7: the computed workspace name is exactly the old name's prefix
before the first `' '` followed by the computed suffix — so it always
begins with the leading token before the first whitespace run, and only
what follows the first space is replaced. -/
theorem c7_index_prefix (config : Config) (classes : List String)
    (old : String) :
    (new_name config classes old).data =
      old.data.takeWhile (fun c => c != ' ') ++
        (joined_classes config classes).data ∧
    ∃ rest, (new_name config classes old).data =
      old.data.takeWhile (fun c => !c.isWhitespace) ++ rest := by
  have hbase : (new_name config classes old).data =
      old.data.takeWhile (fun c => c != ' ') ++
        (joined_classes config classes).data := by
    rw [new_name]
    cases he : (joined_classes config classes).isEmpty with
    | true =>
      rw [if_pos rfl]
      have : joined_classes config classes = "" :=
        (String.isEmpty_iff _).mp he
      rw [this]
      simp [first_token]
    | false =>
      rw [if_neg (by simp [he])]
      rw [String.data_append]
      rfl
  refine ⟨hbase, ?_⟩
  have hmono : ∀ c : Char, (!c.isWhitespace) = true → (c != ' ') = true := by
    intro c hc
    cases hsp : c == ' ' with
    | true =>
      have : c = ' ' := by
        exact eq_of_beq hsp
      subst this
      simp at hc
    | false => simp [bne, hsp]
  obtain ⟨r, hr⟩ := takeWhile_mono_prefix old.data hmono
  exact ⟨r ++ (joined_classes config classes).data, by
    rw [hbase, hr, List.append_assoc]⟩

/-- C8: for a workspace whose window collection succeeded and which has a
name, the per-workspace step issues a rename command exactly when the
computed name differs from the original, and the command is the literal
string `rename workspace "<old>" to "<new>"`. -/
theorem c8_rename_command (config : Config) (workspace : Node)
    (classes : List String) (old : String)
    (h1 : get_classes workspace config = some classes)
    (h2 : workspace.name = some old) :
    process_workspace config workspace =
      some (.ok
        (if old ≠ new_name config classes old then
          ["rename workspace \"" ++ old ++ "\" to \"" ++
            new_name config classes old ++ "\""]
         else [])) := by
  rw [process_workspace, h1, h2]
  by_cases h : old ≠ new_name config classes old <;> simp [h]

/-- The workspace named `"2"` holding one firefox window. -/
def exWs2 : Node :=
  .mk none none .workspace [.mk (some "firefox") none .con [] [] (some 4)
    false (some true) none] [] none false none (some "2")

/-- Witness for C8 at the spec's example: workspace `"2"` with one window
resolving to `"firefox"` issues
`rename workspace "2" to "2 firefox"`. -/
theorem c8_witness :
    process_workspace exCfg exWs2 =
      some (.ok ["rename workspace \"2\" to \"2 firefox\""]) := by
  have h1 : get_classes exWs2 exCfg = some ["firefox"] := by
    simp [get_classes, exWs2, get_window_nodes, collect_window_node,
      get_classes_loop, get_class, skip_window, get_option, mapGet, exCfg,
      Node.nodes, Node.floating_nodes, Node.window, Node.app_id,
      Node.visible, Node.focused, Node.window_properties]
  rw [c8_rename_command exCfg exWs2 ["firefox"] "2" h1 rfl]
  rw [if_pos (by decide)]
  rfl

/-- C1 (amended): a workspace with no name makes the workspace loop stop
with the `WorkspaceName` failure propagated out of `update_tree` (the `?`
operator): no workspace after it in iteration order is processed or
renamed, while renames already issued for earlier workspaces stand. -/
theorem c1_workspace_name_aborts_batch (config : Config)
    (ws1 : List Node) (w : Node) (ws2 : List Node) (cmds : List String)
    (h1 : update_loop config ws1 = .ok cmds)
    (h2 : w.name = none)
    (h3 : get_classes w config ≠ none) :
    update_loop config (ws1 ++ w :: ws2) =
      .fail cmds (.workspaceName w) := by
  induction ws1 generalizing cmds with
  | nil =>
    rw [update_loop] at h1
    cases h1
    rw [List.nil_append]
    rcases hgc : get_classes w config with _ | classes
    · exact absurd hgc h3
    · have hp : process_workspace config w =
          some (.error (.workspaceName w)) := by
        rw [process_workspace, hgc, h2]
      rw [update_loop, hp]
  | cons v vs ih =>
    rw [update_loop] at h1
    rcases hp : process_workspace config v with _ | res
    · rw [hp] at h1
      cases h1
    · rw [hp] at h1
      cases res with
      | error e => cases h1
      | ok c1 =>
        rcases hl : update_loop config vs with c2 | ⟨c2, e⟩ | c2 <;>
          rw [hl] at h1
        · cases h1
          rw [List.cons_append, update_loop, hp, ih c2 hl]
        · cases h1
        · cases h1

/-- Unnamed workspace (contract violation for the Update Orchestrator). -/
def exWsNoName : Node := .mk none none .workspace [] [] none false none none

/-- Tree with the unnamed workspace first and the renamable workspace
`"2"` second, under one output. -/
def exTreeC1 : Node :=
  .mk none none .root
    [.mk none none .output [exWsNoName, exWs2] [] none false none none]
    [] none false none none

/-- C1 counterexample: with an unnamed workspace ahead of workspace `"2"`
(which on its own would be renamed to `"2 firefox"`), `update_tree`
returns the `WorkspaceName` failure having issued no commands at all: the
batch is aborted and the other workspace is *not* processed, contrary to
the claim. -/
theorem c1_counterexample :
    update_tree exTreeC1 exCfg = .fail [] (.workspaceName exWsNoName) ∧
    (∀ cmds, update_tree exTreeC1 exCfg ≠ .ok cmds) ∧
    process_workspace exCfg exWs2 =
      some (.ok ["rename workspace \"2\" to \"2 firefox\""]) := by
  have h0 : update_tree exTreeC1 exCfg =
      .fail [] (.workspaceName exWsNoName) := by
    simp [update_tree, get_workspaces, exTreeC1, exWsNoName, exWs2,
      update_loop, process_workspace, get_classes, get_window_nodes,
      get_classes_loop, get_class, collect_window_node, skip_window,
      get_option, mapGet, exCfg, new_name, joined_classes, apply_dedup,
      with_leading_space, separator_of, first_token, unique, unique_aux,
      Node.nodes, Node.floating_nodes, Node.window, Node.app_id,
      Node.visible, Node.focused, Node.window_properties, Node.node_type,
      Node.name]
  refine ⟨h0, ?_, ?_⟩
  · intro cmds h
    rw [h0] at h
    cases h
  have h1 : get_classes exWs2 exCfg = some ["firefox"] := by
    simp [get_classes, exWs2, get_window_nodes, collect_window_node,
      get_classes_loop, get_class, skip_window, get_option, mapGet, exCfg,
      Node.nodes, Node.floating_nodes, Node.window, Node.app_id,
      Node.visible, Node.focused, Node.window_properties]
  rw [process_workspace, h1]
  rfl

/-- Witness for the amended C1: with the renamable workspace `"2"` ahead
of the unnamed workspace, the loop stops at the unnamed workspace keeping
the already-issued rename. -/
theorem c1_witness :
    update_loop exCfg ([exWs2] ++ exWsNoName :: []) =
      .fail ["rename workspace \"2\" to \"2 firefox\""]
        (.workspaceName exWsNoName) := by
  refine c1_workspace_name_aborts_batch exCfg [exWs2] exWsNoName []
    ["rename workspace \"2\" to \"2 firefox\""] ?_ rfl ?_
  · simp [update_loop, process_workspace, get_classes, exWs2,
      get_window_nodes, collect_window_node, get_classes_loop, get_class,
      skip_window, get_option, mapGet, exCfg, new_name, joined_classes,
      apply_dedup, with_leading_space, separator_of, first_token, unique,
      unique_aux, Node.nodes, Node.floating_nodes, Node.window,
      Node.app_id, Node.visible, Node.focused, Node.window_properties,
      Node.name]
    rfl
  · intro h
    rw [show get_classes exWsNoName exCfg = some [] from by
      simp [get_classes, get_window_nodes, get_classes_loop, exWsNoName,
        Node.nodes, Node.floating_nodes]] at h
    cases h

theorem takeWhile_all {p : Char → Bool} (l : List Char)
    (h : ∀ c ∈ l, p c = true) : l.takeWhile p = l := by
  induction l with
  | nil => rfl
  | cons c l ih =>
    rw [List.takeWhile_cons, h c (List.mem_cons_self c l)]
    rw [ih (fun d hd => h d (List.mem_cons_of_mem c hd))]
    rfl

theorem takeWhile_append_stop {p : Char → Bool} (l r : List Char) (a : Char)
    (hall : ∀ c ∈ l, p c = true) (ha : p a = false) :
    (l ++ a :: r).takeWhile p = l := by
  induction l with
  | nil => simp [List.takeWhile_cons, ha]
  | cons c l ih =>
    rw [List.cons_append, List.takeWhile_cons,
      hall c (List.mem_cons_self c l)]
    rw [ih (fun d hd => hall d (List.mem_cons_of_mem c hd))]
    rfl

theorem first_token_data (s : String) :
    (first_token s).data = s.data.takeWhile (fun c => c != ' ') := rfl

theorem first_token_idem (s : String) :
    first_token (first_token s) = first_token s := by
  apply String.ext
  rw [first_token_data, first_token_data]
  exact takeWhile_all _ (fun c hc => by
    have hp := List.mem_takeWhile_imp hc
    exact hp)

theorem first_token_append_suffix (s j : String) :
    first_token (first_token s ++ (" " ++ j)) = first_token s := by
  apply String.ext
  rw [first_token_data, String.data_append, first_token_data]
  have hsp : (" " ++ j).data = ' ' :: j.data := by
    rw [String.data_append]
    rfl
  rw [hsp]
  exact takeWhile_append_stop _ _ _
    (fun c hc => by
      have hp := List.mem_takeWhile_imp hc
      exact hp)
    (by decide)

/-- Recomputing a workspace name from a previously computed name, with the
same configuration and the same resolved display strings, yields that same
name. -/
theorem new_name_idem (config : Config) (classes : List String)
    (old : String) :
    new_name config classes (new_name config classes old) =
      new_name config classes old := by
  simp only [new_name]
  cases he : (joined_classes config classes).isEmpty with
  | true =>
    simp only [he, if_true]
    exact first_token_idem old
  | false =>
    simp only [he, Bool.false_eq_true, if_false]
    have hj : joined_classes config classes =
        " " ++ String.intercalate (separator_of config)
          (apply_dedup config classes) := by
      rw [joined_classes, with_leading_space]
      rw [if_neg (fun hc => by
        rw [joined_classes, with_leading_space, hc, if_pos rfl, hc] at he
        cases he)]
    rw [hj, first_token_append_suffix]

theorem set_name_nodes (n : Node) (nm : Option String) :
    (n.set_name nm).nodes = n.nodes := by
  cases n
  rfl

theorem set_name_name (n : Node) (nm : Option String) :
    (n.set_name nm).name = nm := by
  cases n
  rfl

theorem set_name_node_type (n : Node) (nm : Option String) :
    (n.set_name nm).node_type = n.node_type := by
  cases n
  rfl

theorem get_classes_set_name (n : Node) (nm : Option String)
    (config : Config) :
    get_classes (n.set_name nm) config = get_classes n config := by
  cases n
  rfl

theorem rename_ws_node_type (config : Config) (w : Node) :
    (rename_ws config w).node_type = w.node_type := by
  rw [rename_ws]
  rcases get_classes w config with _ | classes <;>
    rcases w.name with _ | old <;>
      simp [set_name_node_type]

theorem filter_map_workspace (config : Config) (containers : List Node) :
    (containers.map (fun container =>
        match container.node_type with
        | NodeType.workspace => rename_ws config container
        | _ => container)).filter (fun container =>
        match container.node_type with
        | NodeType.workspace => true
        | _ => false) =
      (containers.filter (fun container =>
        match container.node_type with
        | NodeType.workspace => true
        | _ => false)).map (rename_ws config) := by
  induction containers with
  | nil => rfl
  | cons c cs ih =>
    rw [List.map_cons, List.filter_cons, List.filter_cons]
    rcases hty : c.node_type with _ | _ | _ | _ | _ <;>
      simp only [hty, rename_ws_node_type, List.map_cons, ih] <;>
        simp

theorem get_workspaces_rename_all (config : Config) (t : Node) :
    get_workspaces (rename_all config t) =
      (get_workspaces t).map (rename_ws config) := by
  cases t with
  | mk a wp ty outs fl w f v nm =>
    rw [rename_all, get_workspaces, get_workspaces]
    simp only [Node.nodes, List.flatMap_map, List.map_flatMap]
    congr 1
    funext output
    cases output with
    | mk a2 wp2 ty2 containers fl2 w2 f2 v2 nm2 =>
      simp only [Node.nodes]
      exact filter_map_workspace config containers

theorem update_loop_second_run (config : Config) (wss : List Node) :
    ∀ cmds, update_loop config wss = .ok cmds →
      update_loop config (wss.map (rename_ws config)) = .ok [] := by
  induction wss with
  | nil => intro cmds h; rfl
  | cons w ws ih =>
    intro cmds h
    rw [update_loop] at h
    rcases hp : process_workspace config w with _ | res <;> rw [hp] at h
    · cases h
    · cases res with
      | error e => cases h
      | ok c1 =>
        rcases hl : update_loop config ws with c2 | ⟨c2, e⟩ | c2 <;>
          rw [hl] at h
        · rcases hgc : get_classes w config with _ | classes
          · rw [process_workspace, hgc] at hp
            cases hp
          · rcases hn : w.name with _ | old
            · rw [process_workspace, hgc, hn] at hp
              cases hp
            · have hre : rename_ws config w =
                  w.set_name (some (new_name config classes old)) := by
                rw [rename_ws, hgc, hn]
              have hp2 : process_workspace config
                  (w.set_name (some (new_name config classes old))) =
                    some (.ok []) := by
                rw [process_workspace, get_classes_set_name, hgc,
                  set_name_name]
                simp [new_name_idem config classes old]
              rw [List.map_cons, update_loop, hre, hp2, ih c2 hl]
              rfl
        · cases h
        · cases h

/-- C9: update is idempotent.  After a successful `update_tree` pass,
running it again on the tree in which every workspace carries the name the
first pass computed (the effect of its rename commands) issues no rename
command; the core reason is that recomputing a name from a previously
computed name under the same configuration and display strings yields that
same name. -/
theorem c9_idempotent (tree : Node) (config : Config) (cmds : List String)
    (h : update_tree tree config = .ok cmds) :
    update_tree (rename_all config tree) config = .ok [] ∧
    ∀ (classes : List String) (old : String),
      new_name config classes (new_name config classes old) =
        new_name config classes old := by
  refine ⟨?_, fun classes old => new_name_idem config classes old⟩
  rw [update_tree, get_workspaces_rename_all]
  exact update_loop_second_run config (get_workspaces tree) cmds h

/-- Workspace `"3 AA | BB"` holding windows `AA` and `BB`. -/
def exWs3 : Node :=
  .mk none none .workspace
    [.mk (some "AA") none .con [] [] (some 5) false (some true) none,
     .mk (some "BB") none .con [] [] (some 6) false (some true) none]
    [] none false none (some "3 AA | BB")

/-- Tree with the already-correctly-named workspace `"3 AA | BB"`. -/
def exTree3 : Node :=
  .mk none none .root
    [.mk none none .output [exWs3] [] none false none none]
    [] none false none none

/-- Witness for C9 at the spec's example: the first pass over
`"3 AA | BB"` issues nothing, and a second pass over the renamed tree
issues nothing either; the name recurrence is stationary at
`"3 AA | BB"`. -/
theorem c9_witness :
    update_tree (rename_all exCfg exTree3) exCfg = .ok [] ∧
    new_name exCfg ["AA", "BB"] (new_name exCfg ["AA", "BB"] "3 AA | BB") =
      new_name exCfg ["AA", "BB"] "3 AA | BB" := by
  have h : update_tree exTree3 exCfg = .ok [] := by
    simp [update_tree, get_workspaces, exTree3, exWs3, update_loop,
      process_workspace, get_classes, get_window_nodes, get_classes_loop,
      get_class, collect_window_node, skip_window, get_option, mapGet,
      exCfg, Node.nodes, Node.floating_nodes, Node.window, Node.app_id,
      Node.visible, Node.focused, Node.window_properties, Node.node_type,
      Node.name]
    rfl
  obtain ⟨h1, h2⟩ := c9_idempotent exTree3 exCfg [] h
  exact ⟨h1, h2 ["AA", "BB"] "3 AA | BB"⟩
